import Mathlib

/-!
Shallow embedding of the outbound EVM transaction submission subsystem of the
crypto_payment repository: the in-memory nonce allocator, the fee engine with
escalation, the provider fan-out with error classification, the single-payout
submission flow with its detached confirmation watcher, and the batch approval
manager. Definitions are translated from the TypeScript sources; the theorems
settle the specification claims C1 to C10.
-/

/-! ### Nonce allocator (utils/nonce-allocator.ts)

Access to the state of one (chainId, sender) key is serialized by a per-key
FIFO lock, and the whole body of each operation runs inside that lock, so an
interleaving of concurrent calls is a sequence of atomic operations on the
per-key state. The network call `client.getTransactionCount(pending)` is
replaced by an oracle value supplied with each reserve operation. -/

/-- Per-key allocator state: optional cached counter, reserved-but-unreleased
nonces, and the resync flag. A missing map entry is modelled as `none`. -/
structure NonceState where
  nextNonce : Option Nat
  inFlight : Finset Nat
  needsResync : Bool
deriving DecidableEq

/-- The lazily created fresh state `{ inFlight: new Set(), needsResync: false }`. -/
def emptyNonceState : NonceState := ⟨none, ∅, false⟩

/-- Critical section of `InMemoryNonceAllocator.reserveNonce`. Returns the new
state, the issued nonce, and whether the pending transaction count was fetched
from the network (`fetch` is the value the network would return). -/
def reserveNonce (fetch : Nat) (s : Option NonceState) : NonceState × Nat × Bool :=
  let st0 := s.getD emptyNonceState
  let resyncFetch := st0.needsResync && st0.inFlight.card == 0
  let st1 := if resyncFetch then { st0 with nextNonce := some fetch, needsResync := false } else st0
  let coldFetch := st1.nextNonce.isNone
  let st2 := if coldFetch then { st1 with nextNonce := some fetch } else st1
  let nonce := st2.nextNonce.getD 0
  ({ st2 with nextNonce := some (nonce + 1), inFlight := insert nonce st2.inFlight },
    nonce, resyncFetch || coldFetch)

/-- Critical section of `InMemoryNonceAllocator.releaseNonce`: remove the nonce
from `inFlight`, set the resync flag on failure, and delete the entry when
`inFlight` is empty and no counter is cached. -/
def releaseNonce (nonce : Nat) (success : Bool) (s : Option NonceState) : Option NonceState :=
  match s with
  | none => none
  | some st =>
    let st1 : NonceState :=
      { st with inFlight := st.inFlight.erase nonce,
                needsResync := st.needsResync || !success }
    if st1.inFlight.card == 0 && st1.nextNonce.isNone then none else some st1

/-- Critical section of `InMemoryNonceAllocator.markResync`. -/
def markResync (s : Option NonceState) : Option NonceState :=
  match s with
  | none => none
  | some st => some { st with needsResync := true }

/-- One atomic allocator operation on a single key. -/
inductive NonceOp
  | reserve (fetch : Nat)
  | release (nonce : Nat) (success : Bool)
  | resync
deriving DecidableEq

/-- A run of the allocator on one key: the key state, the nonces issued by the
reserve operations in completion order, and the multiset (as a list) of nonces
whose leases are currently outstanding. -/
structure AllocRun where
  state : Option NonceState
  issued : List Nat
  leased : List Nat
deriving DecidableEq

def startRun : AllocRun := ⟨none, [], []⟩

def stepOp (r : AllocRun) : NonceOp → AllocRun
  | .reserve fetch =>
    let out := reserveNonce fetch r.state
    { state := some out.1, issued := r.issued ++ [out.2.1], leased := r.leased ++ [out.2.1] }
  | .release n success =>
    { r with state := releaseNonce n success r.state, leased := r.leased.erase n }
  | .resync => { r with state := markResync r.state }

def runOps (ops : List NonceOp) : AllocRun := ops.foldl stepOp startRun

/-- The operations allowed by claim C1: reservations and successful releases. -/
def goodOp : NonceOp → Bool
  | .reserve _ => true
  | .release _ success => success
  | .resync => false

/-- Invariant of a failure-free run: issued nonces are strictly increasing, the
outstanding leases form a sub-multiset of the issued nonces, and the cached
counter strictly dominates every issued nonce while the resync flag is clear. -/
def goodRun (r : AllocRun) : Prop :=
  r.issued.Pairwise (· < ·) ∧
  (r.leased : Multiset Nat) ≤ (r.issued : Multiset Nat) ∧
  (match r.state with
   | none => r.issued = []
   | some st => st.needsResync = false ∧ ∃ k, st.nextNonce = some k ∧ ∀ n ∈ r.issued, n < k)

lemma goodRun_start : goodRun startRun := by
  refine ⟨List.Pairwise.nil, le_refl _, rfl⟩

lemma goodRun_step {r : AllocRun} {op : NonceOp} (hr : goodRun r) (hop : goodOp op = true) :
    goodRun (stepOp r op) := by
  obtain ⟨hpw, hle, hst⟩ := hr
  cases op with
  | reserve fetch =>
    cases hs : r.state with
    | none =>
      rw [hs] at hst
      have hissued : r.issued = [] := hst
      have hleased : r.leased = [] := by
        have h0 : (r.leased : Multiset Nat) ≤ 0 := by
          rw [hissued] at hle
          simpa using hle
        simpa using (Multiset.coe_eq_zero _).mp (le_bot_iff.mp (by simpa using h0))
      have hres : reserveNonce fetch none = (⟨some (fetch + 1), {fetch}, false⟩, fetch, true) := rfl
      constructor
      · simp [stepOp, hs, hres, hissued]
      constructor
      · simp [stepOp, hs, hres, hissued, hleased]
      · simp only [stepOp, hs, hres, goodRun]
        exact ⟨trivial, fetch + 1, rfl, by simp [hissued]⟩
    | some st =>
      rw [hs] at hst
      obtain ⟨hrs, k, hnn, hbound⟩ := hst
      obtain ⟨nn, inF, rs⟩ := st
      simp only at hrs hnn
      subst hrs hnn
      have hres : reserveNonce fetch (some ⟨some k, inF, false⟩) =
          (⟨some (k + 1), insert k inF, false⟩, k, false) := rfl
      constructor
      · simp only [stepOp, hs, hres]
        rw [List.pairwise_append]
        refine ⟨hpw, List.pairwise_singleton _ _, ?_⟩
        intro a ha b hb
        simp only [List.mem_singleton] at hb
        subst hb
        exact hbound a ha
      constructor
      · simp only [stepOp, hs, hres]
        rw [← Multiset.coe_add, ← Multiset.coe_add]
        exact add_le_add_right hle _
      · simp only [stepOp, hs, hres]
        refine ⟨trivial, k + 1, rfl, ?_⟩
        intro n hn
        rcases List.mem_append.mp hn with h | h
        · exact Nat.lt_succ_of_lt (hbound n h)
        · simp only [List.mem_singleton] at h
          subst h
          exact Nat.lt_succ_self _
  | release n success =>
    have hsucc : success = true := hop
    subst hsucc
    cases hs : r.state with
    | none =>
      rw [hs] at hst
      have hissued : r.issued = [] := hst
      have hleased : r.leased = [] := by
        have h0 : (r.leased : Multiset Nat) ≤ 0 := by
          rw [hissued] at hle
          simpa using hle
        simpa using (Multiset.coe_eq_zero _).mp (le_bot_iff.mp (by simpa using h0))
      refine ⟨by simpa [stepOp] using hpw, ?_, ?_⟩
      · simp [stepOp, hleased, hissued]
      · simp [stepOp, hs, releaseNonce, hissued]
    | some st =>
      rw [hs] at hst
      obtain ⟨hrs, k, hnn, hbound⟩ := hst
      obtain ⟨nn, inF, rs⟩ := st
      simp only at hrs hnn
      subst hrs hnn
      have hrel : releaseNonce n true (some ⟨some k, inF, false⟩) =
          some ⟨some k, inF.erase n, false⟩ := by
        simp [releaseNonce]
      refine ⟨by simpa [stepOp] using hpw, ?_, ?_⟩
      · have h1 : ((r.leased.erase n : List Nat) : Multiset Nat) ≤ (r.leased : Multiset Nat) := by
          rw [← Multiset.coe_erase]
          exact Multiset.erase_le _ _
        exact le_trans h1 hle
      · simp only [stepOp, hs, hrel]
        exact ⟨trivial, k, rfl, hbound⟩
  | resync => simp [goodOp] at hop

lemma goodRun_foldl (ops : List NonceOp) :
    ∀ r : AllocRun, goodRun r → (∀ op ∈ ops, goodOp op = true) →
      goodRun (ops.foldl stepOp r) := by
  induction ops with
  | nil => intro r hr _; simpa using hr
  | cons op ops ih =>
    intro r hr hops
    simp only [List.foldl_cons]
    exact ih _ (goodRun_step hr (hops op (List.mem_cons_self _ _)))
      (fun o ho => hops o (List.mem_cons_of_mem _ ho))

lemma goodRun_runOps (ops : List NonceOp) (h : ∀ op ∈ ops, goodOp op = true) :
    goodRun (runOps ops) :=
  goodRun_foldl ops startRun goodRun_start h

/-- Claim C1: for every interleaving of concurrent reserveNonce calls on one
(chainId, sender) key during which no release with success = false occurs, the
issued nonces are pairwise distinct and strictly increasing in the order the
reservations complete, and at most one outstanding lease exists per issued
nonce value at any time. -/
theorem nonces_increasing_and_leases_unique_of_no_failed_release
    (ops : List NonceOp) (h : ∀ op ∈ ops, goodOp op = true) :
    (runOps ops).issued.Pairwise (· < ·) ∧
    (∀ i j : Fin (runOps ops).issued.length, i ≠ j →
      (runOps ops).issued.get i ≠ (runOps ops).issued.get j) ∧
    (∀ pre, pre <+: ops → ∀ n : Nat, (runOps pre).leased.count n ≤ 1) := by
  obtain ⟨hpw, _, _⟩ := goodRun_runOps ops h
  have hnd : (runOps ops).issued.Nodup := hpw.imp Nat.ne_of_lt
  refine ⟨hpw, ?_, ?_⟩
  · intro i j hij
    exact fun hval => hij ((List.nodup_iff_injective_get.mp hnd) hval)
  · intro pre hpre n
    have hgood : ∀ op ∈ pre, goodOp op = true := fun op ho => h op (hpre.sublist.mem ho)
    obtain ⟨hpw2, hle2, _⟩ := goodRun_runOps pre hgood
    have hnd2 : (runOps pre).issued.Nodup := hpw2.imp Nat.ne_of_lt
    have h1 : Multiset.count n ((runOps pre).leased : Multiset Nat) ≤
        Multiset.count n ((runOps pre).issued : Multiset Nat) :=
      Multiset.count_le_of_le n hle2
    have h2 : ((runOps pre).issued : Multiset Nat).count n ≤ 1 := by
      rw [Multiset.coe_count]
      exact List.nodup_iff_count_le_one.mp hnd2 n
    calc (runOps pre).leased.count n
        = Multiset.count n ((runOps pre).leased : Multiset Nat) := (Multiset.coe_count _ _).symm
      _ ≤ Multiset.count n ((runOps pre).issued : Multiset Nat) := h1
      _ ≤ 1 := h2

/-- Witness for C1 on a concrete interleaving: two reservations, a successful
release, then a third reservation. -/
theorem nonces_increasing_and_leases_unique_witness :
    (∀ op ∈ [NonceOp.reserve 5, NonceOp.reserve 0, NonceOp.release 5 true, NonceOp.reserve 0],
        goodOp op = true) ∧
    ((runOps [NonceOp.reserve 5, NonceOp.reserve 0, NonceOp.release 5 true,
        NonceOp.reserve 0]).issued.Pairwise (· < ·) ∧
      (∀ i j : Fin (runOps [NonceOp.reserve 5, NonceOp.reserve 0, NonceOp.release 5 true,
          NonceOp.reserve 0]).issued.length, i ≠ j →
        (runOps [NonceOp.reserve 5, NonceOp.reserve 0, NonceOp.release 5 true,
          NonceOp.reserve 0]).issued.get i ≠
        (runOps [NonceOp.reserve 5, NonceOp.reserve 0, NonceOp.release 5 true,
          NonceOp.reserve 0]).issued.get j) ∧
      (∀ pre, pre <+: [NonceOp.reserve 5, NonceOp.reserve 0, NonceOp.release 5 true,
          NonceOp.reserve 0] → ∀ n : Nat, (runOps pre).leased.count n ≤ 1)) :=
  ⟨by decide, nonces_increasing_and_leases_unique_of_no_failed_release _ (by decide)⟩

/-- Claim C2 counterexample: after `reserve 5`, `reserve _`, `release 5 false`,
one lease (nonce 6) is still in flight, so the next `reserveNonce` does not
perform a network fetch (third component `false`): it issues the cached counter
value 7, not the oracle value 99. The claim says every reserve after a failed
release performs a network fetch. -/
theorem reserve_after_failed_release_uses_cached_counter :
    (runOps [NonceOp.reserve 5, NonceOp.reserve 0, NonceOp.release 5 false]).state =
      some ⟨some 7, {6}, true⟩ ∧
    reserveNonce 99 (some ⟨some 7, {6}, true⟩) = (⟨some 8, {7, 6}, true⟩, 7, false) ∧
    (7 : Nat) ≠ 99 := by
  refine ⟨by decide, by decide, by decide⟩

/-- Claim C2 amended: a release with success = false always sets the resync
flag on the surviving state, and the first reserveNonce that begins when no
leases are in flight (resync flag set, or entry missing) performs the network
fetch and issues the fetched pending count rather than the cached counter. A
reserveNonce that begins while other leases are still in flight may issue the
cached counter without any fetch. -/
theorem failed_release_forces_fetch_once_drained (st : NonceState) (n fetch : Nat) :
    ((releaseNonce n false (some st)).elim True fun st2 => st2.needsResync = true) ∧
    (st.needsResync = true → st.inFlight = ∅ →
      (reserveNonce fetch (some st)).2.2 = true ∧ (reserveNonce fetch (some st)).2.1 = fetch) ∧
    ((reserveNonce fetch none).2.2 = true ∧ (reserveNonce fetch none).2.1 = fetch) := by
  obtain ⟨nn, inF, rs⟩ := st
  refine ⟨?_, ?_, rfl, rfl⟩
  · simp only [releaseNonce]
    by_cases h : ((inF.erase n).card == 0 && nn.isNone) = true
    · simp [h]
    · simp [h]
  · intro hrs hinF
    simp only at hrs hinF
    subst hrs hinF
    simp [reserveNonce]

/-- Witness for the amended C2 on a concrete state. -/
theorem failed_release_forces_fetch_once_drained_witness :
    ((releaseNonce 5 false (some ⟨some 7, {5}, false⟩)).elim True
      fun st2 => st2.needsResync = true) ∧
    ((reserveNonce 9 (some ⟨some 7, ∅, true⟩)).2.2 = true ∧
      (reserveNonce 9 (some ⟨some 7, ∅, true⟩)).2.1 = 9) :=
  ⟨(failed_release_forces_fetch_once_drained ⟨some 7, {5}, false⟩ 5 9).1,
    (failed_release_forces_fetch_once_drained ⟨some 7, ∅, true⟩ 5 9).2.1 rfl rfl⟩

/-- State transition of a single allocator operation, state component only. -/
def stepState (s : Option NonceState) : NonceOp → Option NonceState
  | .reserve fetch => some (reserveNonce fetch s).1
  | .release n success => releaseNonce n success s
  | .resync => markResync s

lemma stepState_keeps_alive {st : NonceState} (h : st.nextNonce.isSome = true) (op : NonceOp) :
    ∃ st2, stepState (some st) op = some st2 ∧ st2.nextNonce.isSome = true := by
  obtain ⟨nn, inF, rs⟩ := st
  obtain ⟨k, hk⟩ := Option.isSome_iff_exists.mp h
  simp only at hk
  subst hk
  cases op with
  | reserve fetch => exact ⟨_, rfl, rfl⟩
  | release n success =>
    refine ⟨⟨some k, inF.erase n, rs || !success⟩, ?_, rfl⟩
    simp [stepState, releaseNonce]
  | resync => exact ⟨⟨some k, inF, true⟩, rfl, rfl⟩

lemma foldl_stepState_keeps_alive (ops : List NonceOp) :
    ∀ st : NonceState, st.nextNonce.isSome = true →
      ∃ st2, ops.foldl stepState (some st) = some st2 ∧ st2.nextNonce.isSome = true := by
  induction ops with
  | nil => intro st h; exact ⟨st, rfl, h⟩
  | cons op ops ih =>
    intro st h
    obtain ⟨st1, h1, h2⟩ := stepState_keeps_alive h op
    simp only [List.foldl_cons, h1]
    exact ih st1 h2

/-- Claim C10: once reserveNonce has completed at least once for a key, that
state entry of that key is never deleted: reserveNonce leaves nextNonce defined, no
operation resets it to undefined, and the deletion branch of releaseNonce
(inFlight empty and nextNonce undefined) is unreachable, so the per-key state
persists under every subsequent operation sequence. -/
theorem nonce_state_persists_after_reserve (fetch : Nat) (s : Option NonceState)
    (ops : List NonceOp) :
    ∃ st2, ops.foldl stepState (some (reserveNonce fetch s).1) = some st2 ∧
      st2.nextNonce.isSome = true :=
  foldl_stepState_keeps_alive ops (reserveNonce fetch s).1 rfl

/-! ### Fee engine (services/base.evm.service.ts with constants/const.ts)

Bigint fee arithmetic is embedded as Nat; bigint division truncates, matching
Nat division on the non-negative values involved. -/

def GWEI : Nat := 10 ^ 9

def MAX_TIP_CAP : Nat := 200 * GWEI

def MAX_FEE_CAP : Nat := 500 * GWEI

/-- Modelled from the spec: the per-payway minimum tip floor table TIP_FLOORS
that BaseEvmService destructures from Const.EVM_FEE is not present in the
source snapshot (Const.EVM_FEE defines only TIP_FLOOR_POLYGON = 25 gwei). The
spec describes a chain-family minimum tip floor applied when the suggested tip
is too low, 25 gwei for the polygon family. -/
def TIP_FLOORS (payway : String) : Option Nat :=
  if payway = "polygon_eth" ∨ payway = "polygon_erc20" then some (25 * GWEI) else none

/-- A fee quote: EIP-1559 style (type2 = true) or legacy single gas price. -/
inductive FeeQuote
  | dynamic (tip maxFee : Nat)
  | legacy (gasPrice : Nat)
deriving DecidableEq

/-- `BaseEvmService.buildInitialFees`. `suggestedTip` is the result of the
`eth_maxPriorityFeePerGas` request (`none` when the request failed, which the
code turns into 0), `tipFloor` the chain-family floor, `gasPrice` the value
`client.getGasPrice()` would return on the legacy branch. -/
def buildInitialFees (baseFee : Nat) (suggestedTip : Option Nat) (tipFloor : Option Nat)
    (gasPrice : Nat) : FeeQuote :=
  let tip0 := suggestedTip.getD 0
  let tip1 := if tip0 = 0 then 2 * GWEI else tip0
  let tip2 := match tipFloor with
    | some fl => if tip1 < fl then fl else tip1
    | none => tip1
  if 0 < baseFee then
    let maxFee0 := baseFee * 2 + tip2
    let maxFee1 := if maxFee0 < baseFee + tip2 then baseFee + tip2 else maxFee0
    let tip3 := if MAX_TIP_CAP < tip2 then MAX_TIP_CAP else tip2
    let maxFee2 := if MAX_FEE_CAP < maxFee1 then MAX_FEE_CAP else maxFee1
    FeeQuote.dynamic tip3 maxFee2
  else
    FeeQuote.legacy gasPrice

/-- `BaseEvmService.bumpFees`: tip + 5 gwei and maxFee * 1.2, clamped to the
caps, in dynamic mode; gasPrice * 1.15 uncapped in legacy mode. -/
def bumpFees : FeeQuote → FeeQuote
  | FeeQuote.dynamic tip maxFee =>
    let nextTip := tip + 5 * GWEI
    let nextFee := maxFee * 120 / 100
    FeeQuote.dynamic (if MAX_TIP_CAP < nextTip then MAX_TIP_CAP else nextTip)
      (if MAX_FEE_CAP < nextFee then MAX_FEE_CAP else nextFee)
  | FeeQuote.legacy gasPrice => FeeQuote.legacy (gasPrice * 115 / 100)

/-- `BaseEvmService.handleMinimumTipError`, handled branch: `needed` is the
parsed required tip and `base` the refetched pending base fee. When the current
tip is already at least `needed`, or the quote is legacy, the code falls back
to the generic bump. -/
def handleMinimumTipError (needed base : Nat) : FeeQuote → FeeQuote
  | FeeQuote.dynamic tip maxFee =>
    if tip < needed then
      let nextMaxFee0 := if 0 < base then base * 2 + needed else maxFee
      let nextMaxFee := if nextMaxFee0 < base + needed then base + needed else nextMaxFee0
      let nextTip := if MAX_TIP_CAP < needed then MAX_TIP_CAP else needed
      FeeQuote.dynamic nextTip (if MAX_FEE_CAP < nextMaxFee then MAX_FEE_CAP else nextMaxFee)
    else bumpFees (FeeQuote.dynamic tip maxFee)
  | FeeQuote.legacy gasPrice => bumpFees (FeeQuote.legacy gasPrice)

/-- One fee escalation step of the retry loop. -/
inductive FeeUpdate
  | bump
  | minTip (needed base : Nat)

def applyFeeUpdate (q : FeeQuote) : FeeUpdate → FeeQuote
  | .bump => bumpFees q
  | .minTip needed base => handleMinimumTipError needed base q

def applyFeeUpdates (q : FeeQuote) (us : List FeeUpdate) : FeeQuote :=
  us.foldl applyFeeUpdate q

/-- Claim C5 counterexample: from the reachable dynamic quote (25 gwei,
85 gwei), a minimum-tip error requiring 26 gwei while the refetched pending
base fee is 1 gwei yields (26 gwei, 28 gwei): maxFeePerGas decreases from
85 gwei to 28 gwei between attempts, contradicting non-decrease. -/
theorem handleMinimumTipError_decreases_maxFee :
    buildInitialFees (30 * GWEI) (some (1 * GWEI)) (TIP_FLOORS "polygon_eth") 0 =
      FeeQuote.dynamic (25 * GWEI) (85 * GWEI) ∧
    handleMinimumTipError (26 * GWEI) (1 * GWEI) (FeeQuote.dynamic (25 * GWEI) (85 * GWEI)) =
      FeeQuote.dynamic (26 * GWEI) (28 * GWEI) ∧
    28 * GWEI < 85 * GWEI := by
  refine ⟨by decide, by decide, by decide⟩

lemma le_mul120_div100 (a : Nat) : a ≤ a * 120 / 100 := by
  have h1 : a = a * 100 / 100 := (Nat.mul_div_cancel a (by norm_num)).symm
  calc a = a * 100 / 100 := h1
    _ ≤ a * 120 / 100 := Nat.div_le_div_right (Nat.mul_le_mul_left a (by norm_num))

lemma le_mul115_div100 (a : Nat) : a ≤ a * 115 / 100 := by
  have h1 : a = a * 100 / 100 := (Nat.mul_div_cancel a (by norm_num)).symm
  calc a = a * 100 / 100 := h1
    _ ≤ a * 115 / 100 := Nat.div_le_div_right (Nat.mul_le_mul_left a (by norm_num))

lemma clamp_le_cap (x cap : Nat) : (if cap < x then cap else x) ≤ cap := by
  by_cases h : cap < x
  · simp [h]
  · simp [h, Nat.le_of_not_lt h]

lemma le_clamp {a x cap : Nat} (hx : a ≤ x) (hcap : a ≤ cap) :
    a ≤ (if cap < x then cap else x) := by
  by_cases h : cap < x
  · simpa [h] using hcap
  · simpa [h] using hx

lemma applyFeeUpdate_dynamic (t f : Nat) (u : FeeUpdate) (ht : t ≤ MAX_TIP_CAP) :
    ∃ t2 f2, applyFeeUpdate (FeeQuote.dynamic t f) u = FeeQuote.dynamic t2 f2 ∧
      t ≤ t2 ∧ t2 ≤ MAX_TIP_CAP ∧ f2 ≤ MAX_FEE_CAP := by
  have hbump : ∃ t2 f2, bumpFees (FeeQuote.dynamic t f) = FeeQuote.dynamic t2 f2 ∧
      t ≤ t2 ∧ t2 ≤ MAX_TIP_CAP ∧ f2 ≤ MAX_FEE_CAP := by
    refine ⟨_, _, rfl, ?_, clamp_le_cap _ _, clamp_le_cap _ _⟩
    exact le_clamp (Nat.le_add_right t _) ht
  cases u with
  | bump => simpa [applyFeeUpdate] using hbump
  | minTip needed base =>
    by_cases h : t < needed
    · simp only [applyFeeUpdate, handleMinimumTipError, if_pos h]
      exact ⟨_, _, rfl, le_clamp (Nat.le_of_lt h) ht, clamp_le_cap _ _, clamp_le_cap _ _⟩
    · obtain ⟨t2, f2, heq, h1, h2, h3⟩ := hbump
      exact ⟨t2, f2, by simp [applyFeeUpdate, handleMinimumTipError, h, heq], h1, h2, h3⟩

lemma applyFeeUpdate_legacy (g : Nat) (u : FeeUpdate) :
    applyFeeUpdate (FeeQuote.legacy g) u = FeeQuote.legacy (g * 115 / 100) := by
  cases u with
  | bump => rfl
  | minTip needed base => rfl

lemma applyFeeUpdates_dynamic (us : List FeeUpdate) :
    ∀ t f : Nat, t ≤ MAX_TIP_CAP → f ≤ MAX_FEE_CAP →
      ∃ t2 f2, applyFeeUpdates (FeeQuote.dynamic t f) us = FeeQuote.dynamic t2 f2 ∧
        t ≤ t2 ∧ t2 ≤ MAX_TIP_CAP ∧ f2 ≤ MAX_FEE_CAP := by
  induction us with
  | nil => intro t f ht hf; exact ⟨t, f, rfl, le_refl t, ht, hf⟩
  | cons u us ih =>
    intro t f ht hf
    obtain ⟨t1, f1, heq1, h1, h2, h3⟩ := applyFeeUpdate_dynamic t f u ht
    obtain ⟨t2, f2, heq2, h4, h5, h6⟩ := ih t1 f1 h2 h3
    refine ⟨t2, f2, ?_, le_trans h1 h4, h5, h6⟩
    simpa [applyFeeUpdates, heq1] using heq2

lemma applyFeeUpdates_legacy (us : List FeeUpdate) :
    ∀ g : Nat, ∃ g2, applyFeeUpdates (FeeQuote.legacy g) us = FeeQuote.legacy g2 ∧ g ≤ g2 := by
  induction us with
  | nil => intro g; exact ⟨g, rfl, le_refl g⟩
  | cons u us ih =>
    intro g
    obtain ⟨g2, heq, hle⟩ := ih (g * 115 / 100)
    refine ⟨g2, ?_, le_trans (le_mul115_div100 g) hle⟩
    simpa [applyFeeUpdates, applyFeeUpdate_legacy] using heq

/-- Claim C5 amended: within one submission, starting from a dynamic quote
within the caps, every sequence of bumpFees and handleMinimumTipError updates
keeps maxPriorityFeePerGas non-decreasing and both values within MAX_TIP_CAP
and MAX_FEE_CAP, and a bumpFees step on its own also never decreases
maxFeePerGas; handleMinimumTipError may decrease maxFeePerGas when the
refetched pending base fee is lower (see the counterexample). In legacy mode
gasPrice is non-decreasing under every update sequence but is not clamped to
any cap. -/
theorem fee_escalation_monotone_within_caps (tip fee gp : Nat) (us : List FeeUpdate)
    (ht : tip ≤ MAX_TIP_CAP) (hf : fee ≤ MAX_FEE_CAP) :
    (∃ tip2 fee2, applyFeeUpdates (FeeQuote.dynamic tip fee) us = FeeQuote.dynamic tip2 fee2 ∧
      tip ≤ tip2 ∧ tip2 ≤ MAX_TIP_CAP ∧ fee2 ≤ MAX_FEE_CAP) ∧
    (bumpFees (FeeQuote.dynamic tip fee) =
      FeeQuote.dynamic (if MAX_TIP_CAP < tip + 5 * GWEI then MAX_TIP_CAP else tip + 5 * GWEI)
        (if MAX_FEE_CAP < fee * 120 / 100 then MAX_FEE_CAP else fee * 120 / 100) ∧
      fee ≤ (if MAX_FEE_CAP < fee * 120 / 100 then MAX_FEE_CAP else fee * 120 / 100)) ∧
    (∃ gp2, applyFeeUpdates (FeeQuote.legacy gp) us = FeeQuote.legacy gp2 ∧ gp ≤ gp2) := by
  refine ⟨applyFeeUpdates_dynamic us tip fee ht hf, ⟨rfl, ?_⟩, applyFeeUpdates_legacy us gp⟩
  exact le_clamp (le_mul120_div100 fee) hf

/-- Witness for the amended C5 on a concrete escalation sequence. -/
theorem fee_escalation_monotone_within_caps_witness :
    (∃ tip2 fee2,
      applyFeeUpdates (FeeQuote.dynamic (2 * GWEI) (64 * GWEI))
          [FeeUpdate.bump, FeeUpdate.minTip (50 * GWEI) (10 * GWEI)] =
        FeeQuote.dynamic tip2 fee2 ∧
      2 * GWEI ≤ tip2 ∧ tip2 ≤ MAX_TIP_CAP ∧ fee2 ≤ MAX_FEE_CAP) ∧
    (bumpFees (FeeQuote.dynamic (2 * GWEI) (64 * GWEI)) =
      FeeQuote.dynamic
        (if MAX_TIP_CAP < 2 * GWEI + 5 * GWEI then MAX_TIP_CAP else 2 * GWEI + 5 * GWEI)
        (if MAX_FEE_CAP < 64 * GWEI * 120 / 100 then MAX_FEE_CAP else 64 * GWEI * 120 / 100) ∧
      64 * GWEI ≤ (if MAX_FEE_CAP < 64 * GWEI * 120 / 100 then MAX_FEE_CAP
        else 64 * GWEI * 120 / 100)) ∧
    (∃ gp2,
      applyFeeUpdates (FeeQuote.legacy 7)
          [FeeUpdate.bump, FeeUpdate.minTip (50 * GWEI) (10 * GWEI)] =
        FeeQuote.legacy gp2 ∧ 7 ≤ gp2) :=
  fee_escalation_monotone_within_caps (2 * GWEI) (64 * GWEI) 7
    [FeeUpdate.bump, FeeUpdate.minTip (50 * GWEI) (10 * GWEI)] (by decide) (by decide)

/-- Claim C9 (scenario C): on a dynamic-fee chain with pending base fee 30 gwei,
suggested priority fee 1 gwei and a chain tip floor of 25 gwei, buildInitialFees
returns an effective tip of 25 gwei and a maxFee of 85 gwei (2 x 30 + 25), the
caps of 200 gwei and 500 gwei not binding. -/
theorem buildInitialFees_scenarioC :
    buildInitialFees (30 * GWEI) (some (1 * GWEI)) (TIP_FLOORS "polygon_eth") 0 =
      FeeQuote.dynamic (25 * GWEI) (85 * GWEI) ∧
    TIP_FLOORS "polygon_eth" = some (25 * GWEI) ∧
    25 * GWEI < MAX_TIP_CAP ∧ 85 * GWEI < MAX_FEE_CAP ∧
    MAX_TIP_CAP = 200 * GWEI ∧ MAX_FEE_CAP = 500 * GWEI ∧
    85 * GWEI = 2 * (30 * GWEI) + 25 * GWEI := by
  refine ⟨by decide, by decide, by decide, by decide, rfl, rfl, by decide⟩

/-! ### Error classification and provider fan-out
(utils/evm.ts, constants/const.ts, services/base.evm.service.ts) -/

/-- ASCII lowercase of one character, the effect of `toLowerCase()` on the
ASCII error messages involved. -/
def lowerChar (c : Char) : Char :=
  if 65 ≤ c.toNat ∧ c.toNat ≤ 90 then Char.ofNat (c.toNat + 32) else c

def lowerChars (s : String) : List Char := s.toList.map lowerChar

/-- Character-list version of `String.startsWith`. -/
def charsBeginWith : List Char → List Char → Bool
  | [], _ => true
  | _ :: _, [] => false
  | a :: as, b :: bs => a == b && charsBeginWith as bs

/-- Whether `pat` occurs as a contiguous run inside `text`: `includes`. -/
def charsContain (text pat : List Char) : Bool :=
  match text with
  | [] => charsBeginWith pat []
  | _ :: rest => charsBeginWith pat text || charsContain rest pat

/-- `msg.toLowerCase().includes(pat)` on ASCII messages. -/
def msgIncludes (msg pat : String) : Bool := charsContain (lowerChars msg) pat.toList

/-- `Const.NETWORK_ERROR_PATTERNS`. -/
def NETWORK_ERROR_PATTERNS : List String :=
  ["timeout", "timed out", "socket hang up", "connection error", "connect econnrefused",
    "connection refused", "connection reset", "econnreset", "econnrefused", "enotfound",
    "host not found", "could not connect", "couldn\x27t connect", "failed to fetch",
    "network error", "network down", "invalid json rpc", "503 service unavailable",
    "502 bad gateway", "bad gateway", "service unavailable", "gateway timeout",
    "connection closed", "disconnected", "server unavailable", "unreachable",
    "getaddrinfo enotfound", "connection aborted", "ssl routines", "ssl error",
    "tlsv1 alert", "http request failed", "request failed with status code 5",
    "temporarily unavailable", "backend error", "peer not reachable", "dns lookup failed",
    "cannot assign requested address", "no route to host", "connection timed out",
    "websocket is not open", "closed before a response was received", "request aborted",
    "socket hangup", "pending transaction exists", "unable to get nonce", "nonce too low",
    "failed to meet quorum", "rate limit", "request limit", "exceeded quota",
    "insufficient funds for gas", "block not found", "missing response", "no response",
    "response error", "could not detect network", "response closed without headers",
    "could not retrieve chain id", "unable to get chain id", "is not enabled for this app",
    "context deadline exceeded", "tls handshake timeout", "client connection lost",
    "too many requests", "http 429", "520 origin error", "522 origin connection time-out",
    "524 a timeout occurred", "request entity too large", "typeerror: networkerror"]

/-- `isEvmNetworkError` from utils/evm.ts: the lower-cased message contains one
of the network error patterns. -/
def isEvmNetworkError (msg : String) : Bool :=
  NETWORK_ERROR_PATTERNS.any fun pat => msgIncludes msg pat

/-- Outcome of `sendRawTransaction` (plus the optional receipt wait) on one
provider, as observed by the catch block of `fanoutSend`. -/
inductive PResult
  | ok (hash : String)
  | err (msg : String)
deriving DecidableEq

/-- `BaseEvmService.fanoutSend`: try providers strictly in order; a network
classified error advances to the next provider, remembering the error; any
other error is rethrown at once; exhaustion throws the last stored error. The
second component counts how many providers were tried. -/
def fanoutSend : List PResult → Option String → Except String String × Nat
  | [], last => (Except.error (last.getD "undefined"), 0)
  | PResult.ok h :: _, _ => (Except.ok h, 1)
  | PResult.err m :: rest, _ =>
    if isEvmNetworkError m then
      let out := fanoutSend rest (some m)
      (out.1, out.2 + 1)
    else (Except.error m, 1)

lemma fanoutSend_all_network (msgs : List String) (m : String) :
    ∀ acc : Option String, (∀ x ∈ msgs, isEvmNetworkError x = true) →
      isEvmNetworkError m = true →
      fanoutSend ((msgs ++ [m]).map PResult.err) acc = (Except.error m, msgs.length + 1) := by
  induction msgs with
  | nil =>
    intro acc _ hm
    simp [fanoutSend, hm]
  | cons x msgs ih =>
    intro acc hall hm
    have hx : isEvmNetworkError x = true := hall x (List.mem_cons_self _ _)
    have hrest := ih (some x) (fun y hy => hall y (List.mem_cons_of_mem _ hy)) hm
    simp only [List.map_append, List.map_cons, List.map_nil] at hrest
    simp only [List.cons_append, List.map_cons, List.map_append, fanoutSend, hx, if_pos]
    simp [hrest]

lemma fanoutSend_fatal (msgs : List String) (m : String) (post : List PResult) :
    ∀ acc : Option String, (∀ x ∈ msgs, isEvmNetworkError x = true) →
      isEvmNetworkError m = false →
      fanoutSend (msgs.map PResult.err ++ PResult.err m :: post) acc =
        (Except.error m, msgs.length + 1) := by
  induction msgs with
  | nil =>
    intro acc _ hm
    simp [fanoutSend, hm]
  | cons x msgs ih =>
    intro acc hall hm
    have hx : isEvmNetworkError x = true := hall x (List.mem_cons_self _ _)
    have hrest := ih (some x) (fun y hy => hall y (List.mem_cons_of_mem _ hy)) hm
    simp only [List.cons_append, List.map_cons, fanoutSend, hx, if_pos]
    simp [hrest]

/-- Claim C6: in one fan-out attempt over the configured providers, if all
providers fail with network-classified errors each is tried exactly once and
the attempt surfaces the last error; if a provider fails with a non-network
error the submission aborts there and later providers are never tried (the
tried count stops at that provider and the result is its error). -/
theorem fanoutSend_error_classification (msgs : List String) (m : String) (post : List PResult)
    (hall : ∀ x ∈ msgs, isEvmNetworkError x = true) :
    (isEvmNetworkError m = true →
      fanoutSend ((msgs ++ [m]).map PResult.err) none = (Except.error m, msgs.length + 1)) ∧
    (isEvmNetworkError m = false →
      fanoutSend (msgs.map PResult.err ++ PResult.err m :: post) none =
        (Except.error m, msgs.length + 1)) :=
  ⟨fun hm => fanoutSend_all_network msgs m none hall hm,
    fun hm => fanoutSend_fatal msgs m post none hall hm⟩

/-- Witness for C6: three network-failing providers surface the last error with
three tries; a fatal error at the second provider stops after two tries with
the third provider untouched. -/
theorem fanoutSend_error_classification_witness :
    fanoutSend ((["timeout", "bad gateway"] ++ ["rate limit"]).map PResult.err) none =
      (Except.error "rate limit", 3) ∧
    fanoutSend (["timeout"].map PResult.err ++
        PResult.err "execution reverted" :: [PResult.err "never tried"]) none =
      (Except.error "execution reverted", 2) :=
  ⟨(fanoutSend_error_classification ["timeout", "bad gateway"] "rate limit" [] (by decide)).1
      (by decide),
    (fanoutSend_error_classification ["timeout"] "execution reverted" [PResult.err "never tried"]
      (by decide)).2 (by decide)⟩

/-! ### Single payout submission (services/payout.service.ts)

`PayoutService.sendTransaction` after a successful `prepareTxData`: the held
lease is released in the `finally` block with the success flag; each failed
provider try calls `EVMTransactionLogger.logError` (one notification-sink
send), a confirmed success calls `logSuccess` (one sink send), and with
`waitForReceipt = false` the hash is returned after a submitted-only local log
and `waitForReceiptInBackground` is spawned. The observable effects are
recorded as an ordered event list; the detached watcher effects are appended
after the inline effects. -/

/-- Outcome of `sendViaProvider` on one provider (submission plus the inline
receipt wait when requested), as seen by the catch block. -/
inductive SendOutcome
  | accepted (hash : String)
  | failed (msg : String)
deriving DecidableEq

/-- Observable effects of a submission run. `sink` is one notification-sink
send, `submitLog` the submitted-only local log line, `watcherStart` the spawn
of the detached confirmation watcher, `release b` a lease release with success
flag `b`, `resyncMark` a `markResync` call on the key. -/
inductive Ev
  | sink
  | submitLog
  | watcherStart
  | release (success : Bool)
  | resyncMark
deriving DecidableEq

/-- The provider loop of `sendTransaction`: returns the result, the inline
events, and whether a detached watcher was spawned. -/
def sendLoopEvents (waitForReceipt : Bool) : List SendOutcome → Except String String × List Ev × Bool
  | [] => (Except.error "All RPC providers failed", [], false)
  | SendOutcome.accepted h :: _ =>
    if waitForReceipt then (Except.ok h, [Ev.sink], false)
    else (Except.ok h, [Ev.submitLog, Ev.watcherStart], true)
  | SendOutcome.failed m :: rest =>
    if isEvmNetworkError m then
      let out := sendLoopEvents waitForReceipt rest
      (out.1, Ev.sink :: out.2.1, out.2.2)
    else (Except.error m, [Ev.sink], false)

def isOkResult : Except String String → Bool
  | Except.ok _ => true
  | Except.error _ => false

/-- `sendTransaction` body: the provider loop wrapped in the try/finally that
releases the held lease exactly once with the success flag. -/
def sendTransactionEvents (waitForReceipt : Bool) (outcomes : List SendOutcome) :
    Except String String × List Ev × Bool :=
  let out := sendLoopEvents waitForReceipt outcomes
  (out.1, out.2.1 ++ [Ev.release (isOkResult out.1)], out.2.2)

/-- `waitForReceiptInBackground`: one sink send on watcher resolution, plus a
`markResync` on the key when the receipt wait failed; no lease release. -/
def waitForReceiptInBackgroundEvents (receiptOk : Bool) : List Ev :=
  if receiptOk then [Ev.sink] else [Ev.sink, Ev.resyncMark]

/-- Full observable run of one `sendTransaction` call: inline events followed
by the detached watcher events when one was spawned. -/
def fullRunEvents (waitForReceipt receiptOk : Bool) (outcomes : List SendOutcome) : List Ev :=
  let out := sendTransactionEvents waitForReceipt outcomes
  out.2.1 ++ (if out.2.2 then waitForReceiptInBackgroundEvents receiptOk else [])

def isReleaseEv : Ev → Bool
  | Ev.release _ => true
  | _ => false

def isSinkEv : Ev → Bool
  | Ev.sink => true
  | _ => false

def releaseCount (evs : List Ev) : Nat := (evs.filter isReleaseEv).length

def sinkCount (evs : List Ev) : Nat := (evs.filter isSinkEv).length

/-- Claim C3 counterexample: with two providers both failing with
network-classified errors, the terminal failure of `sendTransaction` has sent
two notification-sink messages (one per failed provider try), not exactly one;
the held lease is still released exactly once, with success = false. -/
theorem two_network_failures_two_sink_calls :
    fullRunEvents true true [SendOutcome.failed "timeout", SendOutcome.failed "connection reset"] =
      [Ev.sink, Ev.sink, Ev.release false] ∧
    sinkCount [Ev.sink, Ev.sink, Ev.release false] = 2 ∧
    (2 : Nat) ≠ 1 := by
  refine ⟨by decide, by decide, by decide⟩

lemma sendLoopEvents_no_release (w : Bool) (outcomes : List SendOutcome) :
    (sendLoopEvents w outcomes).2.1.filter isReleaseEv = [] := by
  induction outcomes with
  | nil => rfl
  | cons o rest ih =>
    cases o with
    | accepted h =>
      by_cases hw : w
      · simp [sendLoopEvents, hw, isReleaseEv]
      · simp [sendLoopEvents, hw, isReleaseEv]
    | failed m =>
      by_cases hm : isEvmNetworkError m
      · simpa [sendLoopEvents, hm, isReleaseEv] using ih
      · simp [sendLoopEvents, hm, isReleaseEv]

lemma watcherEvents_no_release (receiptOk : Bool) :
    (waitForReceiptInBackgroundEvents receiptOk).filter isReleaseEv = [] := by
  cases receiptOk
  · rfl
  · rfl

lemma sendLoopEvents_all_failed (w : Bool) (msgs : List String)
    (hnet : ∀ m ∈ msgs, isEvmNetworkError m = true) :
    sendLoopEvents w (msgs.map SendOutcome.failed) =
      (Except.error "All RPC providers failed", msgs.map fun _ => Ev.sink, false) := by
  induction msgs with
  | nil => rfl
  | cons m msgs ih =>
    have hm : isEvmNetworkError m = true := hnet m (List.mem_cons_self _ _)
    have hrest := ih fun y hy => hnet y (List.mem_cons_of_mem _ hy)
    simp [sendLoopEvents, hm, hrest]

lemma sinkCount_all_sinks (msgs : List String) :
    sinkCount ((msgs.map fun _ => Ev.sink) ++ [Ev.release false]) = msgs.length := by
  induction msgs with
  | nil => rfl
  | cons m msgs ih =>
    simp [sinkCount, isSinkEv] at ih ⊢

/-- Claim C3 amended: on every run of `sendTransaction` after a successful
preparation, the held lease is released exactly once (inline watcher included),
a release with success = false always sets the resync flag on the surviving
state, and the notification sink is called once per failed provider try rather
than exactly once per terminal outcome: a run whose providers all fail with
network errors sends one sink message per provider and then releases the lease
with success = false. -/
theorem sendTransaction_release_once_sink_per_try
    (waitForReceipt receiptOk : Bool) (outcomes : List SendOutcome) (msgs : List String)
    (hnet : ∀ m ∈ msgs, isEvmNetworkError m = true) :
    releaseCount (fullRunEvents waitForReceipt receiptOk outcomes) = 1 ∧
    (∀ st n, ((releaseNonce n false (some st)).elim True fun st2 => st2.needsResync = true)) ∧
    fullRunEvents waitForReceipt receiptOk (msgs.map SendOutcome.failed) =
      (msgs.map fun _ => Ev.sink) ++ [Ev.release false] ∧
    sinkCount (fullRunEvents waitForReceipt receiptOk (msgs.map SendOutcome.failed)) =
      msgs.length := by
  have hall := sendLoopEvents_all_failed waitForReceipt msgs hnet
  have hfull : fullRunEvents waitForReceipt receiptOk (msgs.map SendOutcome.failed) =
      (msgs.map fun _ => Ev.sink) ++ [Ev.release false] := by
    simp [fullRunEvents, sendTransactionEvents, hall, isOkResult]
  refine ⟨?_, ?_, hfull, ?_⟩
  · simp only [releaseCount, fullRunEvents, sendTransactionEvents, List.filter_append,
      sendLoopEvents_no_release]
    by_cases hsp : (sendLoopEvents waitForReceipt outcomes).2.2
    · simp [hsp, watcherEvents_no_release, isReleaseEv]
    · simp [hsp, isReleaseEv]
  · intro st n
    obtain ⟨nn, inF, rs⟩ := st
    simp only [releaseNonce]
    by_cases hcond : ((inF.erase n).card == 0 && nn.isNone) = true
    · simp [hcond]
    · simp [hcond]
  · rw [hfull]
    exact sinkCount_all_sinks msgs

/-- Witness for the amended C3 on concrete runs. -/
theorem sendTransaction_release_once_sink_per_try_witness :
    releaseCount (fullRunEvents true true
      [SendOutcome.failed "timeout", SendOutcome.accepted "0xabc"]) = 1 ∧
    (∀ st n, ((releaseNonce n false (some st)).elim True fun st2 => st2.needsResync = true)) ∧
    fullRunEvents true true (["timeout", "rate limit"].map SendOutcome.failed) =
      ((["timeout", "rate limit"] : List String).map fun _ => Ev.sink) ++ [Ev.release false] ∧
    sinkCount (fullRunEvents true true (["timeout", "rate limit"].map SendOutcome.failed)) =
      (["timeout", "rate limit"] : List String).length :=
  sendTransaction_release_once_sink_per_try true true
    [SendOutcome.failed "timeout", SendOutcome.accepted "0xabc"]
    ["timeout", "rate limit"] (by decide)

/-- Claim C4 counterexample: with `waitForReceipt = false` and an accepted
submission whose detached receipt wait then fails, the single lease release
(with success = true) happens inline on return, before the watcher resolves;
the watcher performs no release at all, only a sink send and a markResync. The
claim says the detached watcher releases the lease on its own resolution. -/
theorem background_watcher_does_not_release :
    fullRunEvents false false [SendOutcome.accepted "0xabc"] =
      [Ev.submitLog, Ev.watcherStart, Ev.release true, Ev.sink, Ev.resyncMark] ∧
    releaseCount [Ev.submitLog, Ev.watcherStart, Ev.release true, Ev.sink, Ev.resyncMark] = 1 ∧
    releaseCount (waitForReceiptInBackgroundEvents false) = 0 := by
  refine ⟨by decide, by decide, by decide⟩

lemma sendLoopEvents_deferred (pre : List String) (h : String) (rest : List SendOutcome)
    (hnet : ∀ m ∈ pre, isEvmNetworkError m = true) :
    sendLoopEvents false (pre.map SendOutcome.failed ++ SendOutcome.accepted h :: rest) =
      (Except.ok h, (pre.map fun _ => Ev.sink) ++ [Ev.submitLog, Ev.watcherStart], true) := by
  induction pre with
  | nil => rfl
  | cons m pre ih =>
    have hm : isEvmNetworkError m = true := hnet m (List.mem_cons_self _ _)
    have hrest := ih fun y hy => hnet y (List.mem_cons_of_mem _ hy)
    simp [sendLoopEvents, hm, hrest]

/-- Claim C4 amended: with `waitForReceipt = false` and an accepted submission,
the hash is returned immediately and a detached confirmation watcher is
spawned, but the lease is released exactly once by `sendTransaction` itself,
with success = true, before the watcher resolves; the watcher performs no lease
release: on its resolution it sends one notification and, on receipt failure,
flags resync through `markResync` (which sets the resync flag on the key). -/
theorem deferred_confirmation_releases_inline_once
    (receiptOk : Bool) (pre : List String) (h : String) (rest : List SendOutcome)
    (hnet : ∀ m ∈ pre, isEvmNetworkError m = true) :
    fullRunEvents false receiptOk (pre.map SendOutcome.failed ++ SendOutcome.accepted h :: rest) =
      (pre.map fun _ => Ev.sink) ++ [Ev.submitLog, Ev.watcherStart, Ev.release true] ++
        waitForReceiptInBackgroundEvents receiptOk ∧
    releaseCount (fullRunEvents false receiptOk
      (pre.map SendOutcome.failed ++ SendOutcome.accepted h :: rest)) = 1 ∧
    releaseCount (waitForReceiptInBackgroundEvents receiptOk) = 0 ∧
    sinkCount (waitForReceiptInBackgroundEvents receiptOk) = 1 ∧
    (receiptOk = false → waitForReceiptInBackgroundEvents receiptOk = [Ev.sink, Ev.resyncMark]) ∧
    (∀ st, (markResync (some st)).elim True fun st2 => st2.needsResync = true) := by
  have hloop := sendLoopEvents_deferred pre h rest hnet
  have hfull : fullRunEvents false receiptOk
      (pre.map SendOutcome.failed ++ SendOutcome.accepted h :: rest) =
      (pre.map fun _ => Ev.sink) ++ [Ev.submitLog, Ev.watcherStart, Ev.release true] ++
        waitForReceiptInBackgroundEvents receiptOk := by
    simp [fullRunEvents, sendTransactionEvents, hloop, isOkResult]
  refine ⟨hfull, ?_, ?_, ?_, ?_, ?_⟩
  · rw [hfull]
    have h1 : ((pre.map fun _ => Ev.sink).filter isReleaseEv) = [] := by
      induction pre with
      | nil => rfl
      | cons x xs ih => simp [isReleaseEv]
    simp [releaseCount, List.filter_append, h1, isReleaseEv, watcherEvents_no_release]
  · simp [releaseCount, watcherEvents_no_release]
  · cases receiptOk
    · rfl
    · rfl
  · intro hro
    subst hro
    rfl
  · intro st
    obtain ⟨nn, inF, rs⟩ := st
    rfl

/-- Witness for the amended C4 on a concrete deferred run. -/
theorem deferred_confirmation_releases_inline_once_witness :
    fullRunEvents false false
        (["timeout"].map SendOutcome.failed ++ SendOutcome.accepted "0xh" :: []) =
      ((["timeout"] : List String).map fun _ => Ev.sink) ++
        [Ev.submitLog, Ev.watcherStart, Ev.release true] ++
        waitForReceiptInBackgroundEvents false ∧
    releaseCount (fullRunEvents false false
      (["timeout"].map SendOutcome.failed ++ SendOutcome.accepted "0xh" :: [])) = 1 ∧
    releaseCount (waitForReceiptInBackgroundEvents false) = 0 ∧
    sinkCount (waitForReceiptInBackgroundEvents false) = 1 ∧
    (false = false → waitForReceiptInBackgroundEvents false = [Ev.sink, Ev.resyncMark]) ∧
    (∀ st, (markResync (some st)).elim True fun st2 => st2.needsResync = true) :=
  deferred_confirmation_releases_inline_once false ["timeout"] "0xh" [] (by decide)

/-! ### Nonce source of each submission path

`PayoutService.prepareTxData` obtains the nonce through
`nonceAllocator.reserveNonce`; `MultiPayoutService.prepareCommon` and
`EvmBatchPayoutService.sendEvmTx` both obtain it from
`client.getTransactionCount({ blockTag: pending })` on the provider and never
touch the allocator. Each path is embedded as the nonce it places in the
transaction, given the allocator state of the key and the provider pending
count. -/

/-- Nonce used by the single-payout path: the allocator lease. -/
def prepareTxDataNonce (st : Option NonceState) (pendingCount : Nat) : Nat :=
  (reserveNonce pendingCount st).2.1

/-- Nonce used by the multi-send path: the provider pending count, the
allocator state being ignored. -/
def prepareCommonNonce (_st : Option NonceState) (pendingCount : Nat) : Nat :=
  pendingCount

/-- Nonce used by the batch path: the provider pending count, the allocator
state being ignored. -/
def sendEvmTxNonce (_st : Option NonceState) (pendingCount : Nat) : Nat :=
  pendingCount

/-- Claim C7 counterexample: with a warm allocator state whose cached counter
is 10 and a provider pending count of 3, the multi-send and batch paths place
nonce 3 (the raw provider transaction count) while the allocator lease would be
10: those two paths do not draw their nonce from the Nonce Allocator. -/
theorem multi_and_batch_nonce_from_provider_count :
    prepareCommonNonce (some ⟨some 10, {10}, false⟩) 3 = 3 ∧
    sendEvmTxNonce (some ⟨some 10, {10}, false⟩) 3 = 3 ∧
    prepareTxDataNonce (some ⟨some 10, {10}, false⟩) 3 = 10 ∧
    (3 : Nat) ≠ 10 := by
  refine ⟨rfl, rfl, by decide, by decide⟩

/-- Claim C7 amended: only the single-payout path reserves its nonce through
the Nonce Allocator (issuing the cached counter when the key is warm, or the
fetched pending count on first use); the multi-send and batch paths place the
pending transaction count read directly from the RPC provider, for every
allocator state. -/
theorem nonce_source_by_submission_path (k pc : Nat) (inF : Finset Nat)
    (st : Option NonceState) :
    prepareTxDataNonce (some ⟨some k, inF, false⟩) pc = k ∧
    prepareTxDataNonce none pc = pc ∧
    prepareCommonNonce st pc = pc ∧
    sendEvmTxNonce st pc = pc := by
  refine ⟨?_, rfl, rfl, rfl⟩
  simp [prepareTxDataNonce, reserveNonce]

/-! ### Batch approval manager (services/evm-batch.payout.service.ts)

`resolveTokenMapping` groups the token transfers by distinct contract (first
occurrence order, as the JS Set preserves) and sums the base-unit amounts per
contract; `checkAndApproveTokens` walks the map, skips zero requirements, reads
the current allowance, and for an insufficient allowance submits one max-value
approval through `sendEvmTx` with `waitForReceipt = true` and awaits it;
`batchSend` runs this before submitting the batch call itself. Transfers are
embedded as (token, base amount) pairs, the allowance read and the approval
outcome as oracles. -/

def MAX_UINT256 : Nat := 2 ^ 256 - 1

/-- One entry of the token map: contract address and aggregated required base
amount. -/
structure TokenReq where
  token : String
  required : Nat
deriving DecidableEq

/-- Observable events of `batchSend`: an approval transaction for a token
(with amount and whether its receipt is awaited) or the batch call itself. -/
inductive BatchEv
  | approveTx (token : String) (amount : Nat) (awaited : Bool)
  | batchCall
deriving DecidableEq

/-- Distinct tokens in first-occurrence order: `new Set(map(...))`. -/
def uniqueTokensAux (seen : List String) : List (String × Nat) → List String
  | [] => []
  | p :: rest =>
    if p.1 ∈ seen then uniqueTokensAux seen rest
    else p.1 :: uniqueTokensAux (p.1 :: seen) rest

def uniqueTokensOf (transfers : List (String × Nat)) : List String :=
  uniqueTokensAux [] transfers

/-- Aggregated base-unit requirement of one token over the batch. -/
def requiredOf (transfers : List (String × Nat)) (tok : String) : Nat :=
  ((transfers.filter fun p => p.1 = tok).map Prod.snd).sum

/-- The token map built by `resolveTokenMapping`. -/
def tokenReqsOf (transfers : List (String × Nat)) : List TokenReq :=
  (uniqueTokensOf transfers).map fun t => ⟨t, requiredOf transfers t⟩

/-- `checkAndApproveTokens`: events in map order plus whether every needed
approval succeeded (a failed approval rethrows, aborting the batch). -/
def checkAndApproveTokens (allowance : String → Nat) (approveOk : String → Bool) :
    List TokenReq → List BatchEv × Bool
  | [] => ([], true)
  | t :: rest =>
    if t.required = 0 then checkAndApproveTokens allowance approveOk rest
    else if allowance t.token < t.required then
      if approveOk t.token then
        let out := checkAndApproveTokens allowance approveOk rest
        (BatchEv.approveTx t.token MAX_UINT256 true :: out.1, out.2)
      else ([BatchEv.approveTx t.token MAX_UINT256 true], false)
    else checkAndApproveTokens allowance approveOk rest

/-- `batchSend`: approvals first, then the batch call when no approval failed. -/
def batchSendEvents (allowance : String → Nat) (approveOk : String → Bool)
    (reqs : List TokenReq) : List BatchEv :=
  let out := checkAndApproveTokens allowance approveOk reqs
  if out.2 then out.1 ++ [BatchEv.batchCall] else out.1

/-- The approval events issued for one token. -/
def approvalsFor : List BatchEv → String → List BatchEv
  | [], _ => []
  | BatchEv.approveTx t a w :: evs, tok =>
    if t == tok then BatchEv.approveTx t a w :: approvalsFor evs tok else approvalsFor evs tok
  | BatchEv.batchCall :: evs, tok => approvalsFor evs tok

/-- Whether `checkAndApproveTokens` issues an approval for this entry. -/
def needsApproval (allowance : String → Nat) (r : TokenReq) : Bool :=
  !(r.required == 0) && decide (allowance r.token < r.required)

lemma checkAndApproveTokens_eq (allowance : String → Nat) (approveOk : String → Bool)
    (hok : ∀ t, approveOk t = true) (reqs : List TokenReq) :
    checkAndApproveTokens allowance approveOk reqs =
      ((reqs.filter (needsApproval allowance)).map
        fun r => BatchEv.approveTx r.token MAX_UINT256 true, true) := by
  induction reqs with
  | nil => rfl
  | cons r rest ih =>
    by_cases h0 : r.required = 0
    · have hna : needsApproval allowance r = false := by simp [needsApproval, h0]
      simp [checkAndApproveTokens, h0, List.filter_cons, hna, ih]
    · by_cases hlt : allowance r.token < r.required
      · have hna : needsApproval allowance r = true := by simp [needsApproval, h0, hlt]
        simp [checkAndApproveTokens, h0, hlt, hok r.token, List.filter_cons, hna, ih]
      · have hna : needsApproval allowance r = false := by simp [needsApproval, hlt]
        simp [checkAndApproveTokens, h0, hlt, List.filter_cons, hna, ih]

lemma mem_uniqueTokensAux (l : List (String × Nat)) :
    ∀ (seen : List String) (x : String),
      x ∈ uniqueTokensAux seen l ↔ x ∈ l.map Prod.fst ∧ x ∉ seen := by
  induction l with
  | nil => intro seen x; simp [uniqueTokensAux]
  | cons p rest ih =>
    intro seen x
    by_cases hp : p.1 ∈ seen
    · rw [uniqueTokensAux, if_pos hp, ih]
      simp only [List.map_cons, List.mem_cons]
      constructor
      · rintro ⟨hm, hs⟩
        exact ⟨Or.inr hm, hs⟩
      · rintro ⟨hm | hm, hs⟩
        · subst hm
          exact absurd hp hs
        · exact ⟨hm, hs⟩
    · rw [uniqueTokensAux, if_neg hp]
      simp only [List.mem_cons, ih, List.map_cons]
      constructor
      · rintro (hx | ⟨hm, hs⟩)
        · subst hx
          exact ⟨Or.inl rfl, hp⟩
        · refine ⟨Or.inr hm, fun hxs => hs (Or.inr hxs)⟩
      · rintro ⟨hx | hm, hs⟩
        · exact Or.inl hx
        · by_cases hxp : x = p.1
          · exact Or.inl hxp
          · exact Or.inr ⟨hm, by simp [List.mem_cons, hxp, hs]⟩

lemma nodup_uniqueTokensAux (l : List (String × Nat)) :
    ∀ seen : List String, (uniqueTokensAux seen l).Nodup := by
  induction l with
  | nil => intro seen; simp [uniqueTokensAux]
  | cons p rest ih =>
    intro seen
    by_cases hp : p.1 ∈ seen
    · rw [uniqueTokensAux, if_pos hp]
      exact ih seen
    · rw [uniqueTokensAux, if_neg hp]
      refine List.nodup_cons.mpr ⟨?_, ih _⟩
      intro hmem
      rcases (mem_uniqueTokensAux rest (p.1 :: seen) p.1).mp hmem with ⟨_, hns⟩
      exact hns (List.mem_cons_self _ _)

lemma approvalsFor_none (allowance : String → Nat) (tok : String) :
    ∀ reqs : List TokenReq, (∀ r ∈ reqs, r.token = tok → r.required ≤ allowance tok) →
      approvalsFor ((reqs.filter (needsApproval allowance)).map
        fun r => BatchEv.approveTx r.token MAX_UINT256 true) tok = [] := by
  intro reqs
  induction reqs with
  | nil => intro _; rfl
  | cons r rest ih =>
    intro h
    have htail := ih fun r2 hr2 => h r2 (List.mem_cons_of_mem _ hr2)
    by_cases hna : needsApproval allowance r = true
    · have hrt : ¬ r.token = tok := by
        intro hrt
        have hle := h r (List.mem_cons_self _ _) hrt
        have h2 := hna
        simp only [needsApproval, Bool.and_eq_true, decide_eq_true_eq] at h2
        rw [hrt] at h2
        exact absurd hle (not_le.mpr h2.2)
      rw [List.filter_cons, if_pos hna, List.map_cons, approvalsFor,
        if_neg (by simpa using hrt)]
      exact htail
    · have hna2 : needsApproval allowance r = false := by
        revert hna; cases needsApproval allowance r <;> simp
      rw [List.filter_cons, if_neg (by simp [hna2])]
      exact htail

lemma approvalsFor_one (allowance : String → Nat) (tok : String) (req : Nat) :
    ∀ reqs : List TokenReq, (reqs.map TokenReq.token).Nodup →
      TokenReq.mk tok req ∈ reqs → allowance tok < req →
      approvalsFor ((reqs.filter (needsApproval allowance)).map
        fun r => BatchEv.approveTx r.token MAX_UINT256 true) tok =
        [BatchEv.approveTx tok MAX_UINT256 true] := by
  intro reqs
  induction reqs with
  | nil => intro _ hmem _; cases hmem
  | cons r rest ih =>
    intro hnd hmem hlt
    rw [List.map_cons] at hnd
    have hnd1 := (List.nodup_cons.mp hnd).1
    have hnd2 := (List.nodup_cons.mp hnd).2
    rcases List.mem_cons.mp hmem with heq | hmem2
    · have hr : r = TokenReq.mk tok req := heq.symm
      subst hr
      have h0 : ¬ req = 0 := by
        intro h
        subst h
        exact Nat.not_lt_zero _ hlt
      have hna : needsApproval allowance (TokenReq.mk tok req) = true := by
        simp [needsApproval, h0, hlt]
      have hnotin : tok ∉ rest.map TokenReq.token := hnd1
      have htail : approvalsFor ((rest.filter (needsApproval allowance)).map
          fun r => BatchEv.approveTx r.token MAX_UINT256 true) tok = [] :=
        approvalsFor_none allowance tok rest fun r2 hr2 ht =>
          absurd (ht ▸ List.mem_map_of_mem TokenReq.token hr2) hnotin
      rw [List.filter_cons, if_pos hna, List.map_cons, approvalsFor, if_pos (by simp)]
      rw [htail]
    · have hrt : ¬ r.token = tok := by
        intro h
        apply hnd1
        rw [h]
        exact List.mem_map_of_mem TokenReq.token hmem2
      by_cases hna : needsApproval allowance r = true
      · rw [List.filter_cons, if_pos hna, List.map_cons, approvalsFor,
          if_neg (by simpa using hrt)]
        exact ih hnd2 hmem2 hlt
      · have hna2 : needsApproval allowance r = false := by
          revert hna; cases needsApproval allowance r <;> simp
        rw [List.filter_cons, if_neg (by simp [hna2])]
        exact ih hnd2 hmem2 hlt

lemma approvalsFor_append_batchCall (tok : String) :
    ∀ evs : List BatchEv, approvalsFor (evs ++ [BatchEv.batchCall]) tok = approvalsFor evs tok := by
  intro evs
  induction evs with
  | nil => rfl
  | cons e evs ih =>
    cases e with
    | approveTx t a w =>
      by_cases ht : (t == tok) = true
      · rw [List.cons_append, approvalsFor, if_pos ht, approvalsFor, if_pos ht, ih]
      · rw [List.cons_append, approvalsFor, if_neg ht, approvalsFor, if_neg ht, ih]
    | batchCall =>
      rw [List.cons_append, approvalsFor, approvalsFor, ih]

lemma tokenReqsOf_token_map (transfers : List (String × Nat)) :
    (tokenReqsOf transfers).map TokenReq.token = uniqueTokensOf transfers := by
  rw [tokenReqsOf, List.map_map]
  have h : (TokenReq.token ∘ fun t => TokenReq.mk t (requiredOf transfers t)) = fun t => t :=
    funext fun t => rfl
  rw [h, List.map_id']

/-- Claim C8: for every batchSend call and every distinct token contract, an
aggregate required amount (summed after decimal scaling) exceeding the current
allowance to the batch contract produces exactly one awaited max-value approval
event before the batch call; an aggregate within the allowance (zero included)
produces no approval for that token; and the event trace is the approvals
followed by the batch call. -/
theorem batchSend_approval_policy (transfers : List (String × Nat))
    (allowance : String → Nat) (approveOk : String → Bool) (tok : String)
    (hok : ∀ t, approveOk t = true) :
    (allowance tok < requiredOf transfers tok → tok ∈ transfers.map Prod.fst →
      approvalsFor (batchSendEvents allowance approveOk (tokenReqsOf transfers)) tok =
        [BatchEv.approveTx tok MAX_UINT256 true]) ∧
    (requiredOf transfers tok ≤ allowance tok →
      approvalsFor (batchSendEvents allowance approveOk (tokenReqsOf transfers)) tok = []) ∧
    (∃ apps, batchSendEvents allowance approveOk (tokenReqsOf transfers) =
      apps ++ [BatchEv.batchCall] ∧
      ∀ e ∈ apps, ∃ t2, e = BatchEv.approveTx t2 MAX_UINT256 true) := by
  have hchk := checkAndApproveTokens_eq allowance approveOk hok (tokenReqsOf transfers)
  have hevs : batchSendEvents allowance approveOk (tokenReqsOf transfers) =
      (((tokenReqsOf transfers).filter (needsApproval allowance)).map
        fun r => BatchEv.approveTx r.token MAX_UINT256 true) ++ [BatchEv.batchCall] := by
    simp [batchSendEvents, hchk]
  have hnd : ((tokenReqsOf transfers).map TokenReq.token).Nodup := by
    rw [tokenReqsOf_token_map]
    exact nodup_uniqueTokensAux transfers []
  refine ⟨?_, ?_, ?_⟩
  · intro hlt hmem
    have hmemu : tok ∈ uniqueTokensOf transfers :=
      (mem_uniqueTokensAux transfers [] tok).mpr ⟨hmem, List.not_mem_nil tok⟩
    have hmemr : TokenReq.mk tok (requiredOf transfers tok) ∈ tokenReqsOf transfers :=
      List.mem_map_of_mem (fun t => TokenReq.mk t (requiredOf transfers t)) hmemu
    rw [hevs, approvalsFor_append_batchCall]
    exact approvalsFor_one allowance tok (requiredOf transfers tok)
      (tokenReqsOf transfers) hnd hmemr hlt
  · intro hle
    rw [hevs, approvalsFor_append_batchCall]
    refine approvalsFor_none allowance tok (tokenReqsOf transfers) ?_
    intro r hr ht
    rcases List.mem_map.mp hr with ⟨t, _, hteq⟩
    have hreq : r.required = requiredOf transfers r.token := by
      rw [← hteq]
    rw [hreq, ht]
    exact hle
  · refine ⟨_, hevs, ?_⟩
    intro e he
    rcases List.mem_map.mp he with ⟨r, _, hre⟩
    exact ⟨r.token, hre.symm⟩

/-- Witness for C8 on a concrete batch: token A needs 1100 against allowance
1000 (one approval), token B needs 100 against allowance 100 (no approval). -/
theorem batchSend_approval_policy_witness :
    ((fun t => if t == "0xA" then (1000 : Nat) else 100) "0xA" <
        requiredOf [("0xA", 500), ("0xA", 600), ("0xB", 100)] "0xA" ∧
      approvalsFor (batchSendEvents (fun t => if t == "0xA" then (1000 : Nat) else 100)
          (fun _ => true) (tokenReqsOf [("0xA", 500), ("0xA", 600), ("0xB", 100)])) "0xA" =
        [BatchEv.approveTx "0xA" MAX_UINT256 true]) ∧
    (requiredOf [("0xA", 500), ("0xA", 600), ("0xB", 100)] "0xB" ≤
        (fun t => if t == "0xA" then (1000 : Nat) else 100) "0xB" ∧
      approvalsFor (batchSendEvents (fun t => if t == "0xA" then (1000 : Nat) else 100)
          (fun _ => true) (tokenReqsOf [("0xA", 500), ("0xA", 600), ("0xB", 100)])) "0xB" = []) ∧
    (∃ apps, batchSendEvents (fun t => if t == "0xA" then (1000 : Nat) else 100)
        (fun _ => true) (tokenReqsOf [("0xA", 500), ("0xA", 600), ("0xB", 100)]) =
      apps ++ [BatchEv.batchCall] ∧
      ∀ e ∈ apps, ∃ t2, e = BatchEv.approveTx t2 MAX_UINT256 true) := by
  have hA := batchSend_approval_policy [("0xA", 500), ("0xA", 600), ("0xB", 100)]
    (fun t => if t == "0xA" then (1000 : Nat) else 100) (fun _ => true) "0xA" (fun _ => rfl)
  have hB := batchSend_approval_policy [("0xA", 500), ("0xA", 600), ("0xB", 100)]
    (fun t => if t == "0xA" then (1000 : Nat) else 100) (fun _ => true) "0xB" (fun _ => rfl)
  refine ⟨⟨by decide, hA.1 (by decide) (by decide)⟩, ⟨by decide, hB.2.1 (by decide)⟩, hB.2.2⟩
